import Mathlib

/-!
Verification of the makerspace usage-analysis scripts.

This file gives a shallow embedding of the parts of the repository that the
claims concern, and proves theorems about the embedded definitions.

Modelling conventions:
* A pandas `Timestamp` (and a Python `datetime`) is an integer number of
  seconds since the Unix epoch (`1970-01-01 00:00:00`, a Thursday).  A pure
  date, such as a term boundary produced by `datetime.strptime(s, "%Y-%m-%d")`,
  is a multiple of `86400` (midnight).
* `Timedelta.days` and Python integer `//` are floor division, modelled by
  `Int.fdiv`; Python `%` on a positive modulus is `Int.emod`.
* A DataFrame is a list of rows.  A raw row of the access log carries its
  `Timestamp`, its `Access Type`, and all remaining columns as an uninterpreted
  association list, so that theorems can speak about every input column.
* `avg_usage`, a float in the code, is modelled as a rational number: the
  claims under study concern which rows are selected, not float rounding.
* The Term API of `api_integration.py` is modelled by an oracle mapping a term
  id to either a transport error (`requests` exceptions) or a parsed JSON
  response, and `datetime.strptime` by an oracle `String → Option Int`
  (`none` models a raised `ValueError`).
-/

namespace Makerspace

/-- A row of the raw access log: the `Timestamp` column (seconds since epoch),
the `Access Type` column, and every remaining column as (name, value) pairs. -/
structure Row where
  timestamp : Int
  accessType : String
  other : List (String × String)
deriving DecidableEq, Repr

/-- A term as returned by `fetch_terms`: `(semester_name, start_date, end_date)`.
The Python names `start_date` and `end_date` become `startDate`/`endDate`
(`end` is a Lean keyword). -/
structure Term where
  name : String
  startDate : Int
  endDate : Int
deriving DecidableEq, Repr

/-- A row of the DataFrame built by `add_semester_info`: the original row
plus the `Semester` and `Semester_Week` columns (`none` models the initial
Python `None`). -/
structure ERow where
  row : Row
  semester : String
  semesterWeek : Option Int
deriving DecidableEq, Repr

/-- A row of the DataFrame returned by `enhance_dataset`: additionally the
`Equipment_Category` column added by `add_equipment_category`. -/
structure CRow where
  row : Row
  semester : String
  semesterWeek : Option Int
  equipmentCategory : String
deriving DecidableEq, Repr

/-! ### `prepare_data.clean_and_load` -/

/-- The `df.drop_duplicates()` call: pandas keeps the first occurrence of each
duplicated row.  `seen` accumulates the rows already kept. -/
def dropDuplicates (seen : List Row) : List Row → List Row
  | [] => []
  | r :: rs =>
      if r ∈ seen then dropDuplicates seen rs
      else r :: dropDuplicates (r :: seen) rs

/-- `clean_and_load(file_path, covid_start, covid_end)` after the CSV has been
parsed into `rows`: drop duplicates, then drop rows with
`covid_start <= Timestamp <= covid_end`. -/
def cleanAndLoad (rows : List Row) (covidStart covidEnd : Int) : List Row :=
  let df := dropDuplicates [] rows
  df.filter (fun r => !(covidStart ≤ r.timestamp && r.timestamp ≤ covidEnd))

/-! ### `prepare_data.add_semester_info` -/

/-- Python `datetime.weekday()`: 0 for Monday … 6 for Sunday.  Day 0 of the
epoch is a Thursday, whose weekday index is 3. -/
def weekday (s : Int) : Int := (s.fdiv 86400 + 3) % 7

/-- The mask `(Timestamp >= start_date) & (Timestamp <= end_date)` for one
term, evaluated at one timestamp. -/
def termMatches (t : Term) (ts : Int) : Bool :=
  t.startDate ≤ ts && ts ≤ t.endDate

/-- `first_monday = start_date - pd.Timedelta(days=start_date.weekday())`. -/
def firstMonday (t : Term) : Int :=
  t.startDate - 86400 * weekday t.startDate

/-- The week number assigned to a masked record:
`days_since_first_monday = (Timestamp - first_monday).dt.days` (floor) and
`Semester_Week = days_since_first_monday // 7 + 1`. -/
def weekNum (t : Term) (ts : Int) : Int :=
  ((ts - firstMonday t).fdiv 86400).fdiv 7 + 1

/-- Column initialisation: `Semester` set to `"Unknown"`, `Semester_Week = None`. -/
def initRow (r : Row) : ERow :=
  { row := r, semester := "Unknown", semesterWeek := none }

/-- One loop iteration of `add_semester_info`, restricted to a single row:
if the row is in the mask of term `t`, overwrite its `Semester` and
`Semester_Week` columns. -/
def applyTerm (t : Term) (e : ERow) : ERow :=
  if termMatches t e.row.timestamp then
    { e with semester := t.name, semesterWeek := some (weekNum t e.row.timestamp) }
  else e

/-- One loop iteration of `add_semester_info` over the whole DataFrame. -/
def termPass (t : Term) (df : List ERow) : List ERow :=
  df.map (applyTerm t)

/-- Insert a term into a list already sorted by start date, after every term
with a strictly smaller start date (the later-inserted term goes first among
equal start dates, which together with `sortTerms` below reproduces the
stability of Python `sorted`). -/
def insertTerm (t : Term) : List Term → List Term
  | [] => [t]
  | u :: us =>
      if u.startDate < t.startDate then u :: insertTerm t us
      else t :: u :: us

/-- `sorted(terms_data, key=lambda x: x[1])`: a stable sort by start date.
Python `sorted` is specified as a stable sort, so its output is determined by
that specification; this insertion sort realises the same specification. -/
def sortTerms : List Term → List Term
  | [] => []
  | t :: ts => insertTerm t (sortTerms ts)

/-- The whole `for semester_name, start_date, end_date in sorted_terms` loop,
restricted to a single row (each iteration touches a row independently of all
other rows). -/
def assignRow (terms : List Term) (r : Row) : ERow :=
  terms.foldl (fun e t => applyTerm t e) (initRow r)

/-- `add_semester_info(df, terms_data)`: copy the frame, initialise the two
new columns, run the per-term mask loop over the chronologically sorted terms,
then drop the rows whose `Semester` is still `"Unknown"`. -/
def addSemesterInfo (df : List Row) (terms : List Term) : List ERow :=
  let enhanced := df.map initRow
  let sorted := sortTerms terms
  let assigned := sorted.foldl (fun d t => termPass t d) enhanced
  assigned.filter (fun e => e.semester != "Unknown")

/-! ### `prepare_data.enhance_dataset` and `add_equipment_category` -/

/-- The `equipment_normalization` replacement applied to the `Access Type`
column (`Series.replace` substitutes on exact match). -/
def normalizeAccess (a : String) : String :=
  if a = "Jacobs DiWire Room 220C" then "Jacobs DiWire"
  else if a = "Jacobs Vinyl Cutter and Inkjet" then "Jacobs Vinyl Cutter"
  else a

/-- The `equipment_categories` dictionary, in insertion order (Python dicts
iterate in insertion order, which the substring-match fallback relies on). -/
def equipmentCategories : List (String × String) :=
  [("Jacobs Connex", "Advanced 3D Printing"),
   ("Jacobs Dimension", "Advanced 3D Printing"),
   ("Jacobs Form 3", "Advanced 3D Printing"),
   ("Jacobs Fortus", "Advanced 3D Printing"),
   ("Jacobs FabLight Laser", "Advanced Prototyping"),
   ("Jacobs OMAX Waterjet", "Advanced Prototyping"),
   ("Jacobs Shopbot", "Advanced Prototyping"),
   ("Jacobs Type A", "Basic 3D Printing"),
   ("Jacobs DiWire", "Basic Prototyping"),
   ("Jacobs Inkjet", "Basic Prototyping"),
   ("Jacobs Vinyl Cutter", "Basic Prototyping"),
   ("Jacobs Laser Access", "Laser Cutting"),
   ("Jacobs Metal Shop", "Metal Shop"),
   ("Jacobs Wood Shop", "Wood Shop"),
   ("Jacobs MakerPass Access", "Entry")]

/-- Python `needle in hay` on strings: contiguous substring containment. -/
def strContains (hay needle : String) : Bool :=
  decide (needle.toList <:+: hay.toList)

/-- `map_equipment_category(access_type)`: direct dictionary lookup, then a
first-match scan for a case-insensitive substring match, then `"Other"`. -/
def mapEquipmentCategory (accessType : String) : String :=
  match equipmentCategories.find? (fun p => p.1 = accessType) with
  | some p => p.2
  | none =>
      match equipmentCategories.find?
          (fun p => strContains accessType.toLower p.1.toLower) with
      | some p => p.2
      | none => "Other"

/-- `add_equipment_category(df)`: add the `Equipment_Category` column computed
from `Access Type`; all other columns are carried over. -/
def addEquipmentCategory (df : List ERow) : List CRow :=
  df.map (fun e =>
    { row := e.row, semester := e.semester, semesterWeek := e.semesterWeek,
      equipmentCategory := mapEquipmentCategory e.row.accessType })

/-- Set the `Access Type` column of a row. -/
def setAccessType (r : Row) (a : String) : Row :=
  { r with accessType := a }

/-- `enhance_dataset(df, terms_data)`: copy the frame, normalise `Access Type`,
then run the same column initialisation, sorted per-term mask loop and
`"Unknown"` filter as `add_semester_info`, and finally add the equipment
category column. -/
def enhanceDataset (df : List Row) (terms : List Term) : List CRow :=
  let enhanced := df.map (fun r => setAccessType r (normalizeAccess r.accessType))
  let initialised := enhanced.map initRow
  let sorted := sortTerms terms
  let assigned := sorted.foldl (fun d t => termPass t d) initialised
  let filtered := assigned.filter (fun e => e.semester != "Unknown")
  addEquipmentCategory filtered

/-! ### `analyze_usage.identify_peak_weeks` -/

/-- A row of `weekly_stats`: indexed by `Semester_Week` (the groupby key, hence
the week labels are distinct), with the aggregates the function reads. -/
structure WeekStat where
  week : Int
  avgUsage : ℚ
  numSemesters : ℕ
deriving DecidableEq, Repr

/-- `Series.idxmax` restricted to a row list: the first row attaining the
maximal value of `f` (pandas `idxmax` returns the first occurrence of the
maximum; the fold replaces the current best only on a strict increase). -/
def idxmaxBy (f : WeekStat → ℚ) : List WeekStat → Option WeekStat
  | [] => none
  | x :: xs => some (xs.foldl (fun best y => if f best < f y then y else best) x)

/-- `Series.idxmin`: the first row attaining the minimal value of `f`. -/
def idxminBy (f : WeekStat → ℚ) : List WeekStat → Option WeekStat
  | [] => none
  | x :: xs => some (xs.foldl (fun best y => if f y < f best then y else best) x)

/-- `weekly_stats["num_semesters"].max()` (0 on an empty frame, where the
function would already have failed at `idxmax`). -/
def maxNumSemesters (stats : List WeekStat) : ℕ :=
  stats.foldl (fun m s => max m s.numSemesters) 0

/-- `identify_peak_weeks(weekly_stats)`: the week of highest average usage over
all weeks, and the week of lowest average usage among the weeks whose
`num_semesters` is at least `0.75 * num_semesters.max()`.  Since the week
labels are the (distinct) groupby keys, `weekly_stats.loc[idx, "avg_usage"]`
is the `avgUsage` field of the selected row.  `none` models the exception
pandas raises on an empty frame. -/
def identifyPeakWeeks (stats : List WeekStat) :
    Option ((Int × ℚ) × (Int × ℚ)) :=
  match idxmaxBy WeekStat.avgUsage stats with
  | none => none
  | some hi =>
      let commonWeeks := stats.filter
        (fun s => (3 / 4 : ℚ) * (maxNumSemesters stats : ℚ) ≤ (s.numSemesters : ℚ))
      match idxminBy WeekStat.avgUsage commonWeeks with
      | none => none
      | some lo => some ((hi.week, hi.avgUsage), (lo.week, lo.avgUsage))

/-! ### `api_integration.fetch_terms` -/

/-- One entry of the `sessions` array of a term in the API response. -/
structure SessionJson where
  beginDate : Option String
deriving DecidableEq, Repr

/-- One entry of the `terms` array of the API response.  An absent JSON key is
`none` (for lists, `data.get(..., [])` makes an absent key an empty list). -/
structure TermJson where
  name : Option String
  sessions : List SessionJson
  fullyGradedDeadline : Option String
deriving DecidableEq, Repr

/-- The decoded JSON body of a successful API response:
`data.get("response", {}).get("terms", [])`. -/
structure TermsResponse where
  terms : List TermJson
deriving DecidableEq, Repr

/-- Python falsiness of an optional string: `None` and `""` are falsy
(the code guards each extracted field with `if not value`). -/
def falsyStr : Option String → Bool
  | none => true
  | some s => s = ""

/-- The body of the `try` block of `fetch_terms` for a single term id.  `api`
models the GET request (`Except.error` is a raised
`requests.exceptions.RequestException`, covering `raise_for_status`), and
`parseDate` models `datetime.strptime(s, "%Y-%m-%d")` (`none` is a raised
`ValueError`).  Every other failure in the body is a raised `KeyError`. -/
def processTerm (api : ℕ → Except String TermsResponse)
    (parseDate : String → Option Int) (termId : ℕ) :
    Except String (String × Int × Int) :=
  match api termId with
  | .error e => .error ("API request failed: " ++ e)
  | .ok data =>
    match data.terms with
    | [] => .error "No UGRD term data found"
    | term :: _ =>
      if falsyStr term.name then .error "Semester name not found"
      else
        match term.sessions with
        | [] => .error "No sessions found"
        | sess :: _ =>
          if falsyStr sess.beginDate then .error "Start date not found"
          else if falsyStr term.fullyGradedDeadline then .error "End date not found"
          else
            match parseDate (sess.beginDate.getD "") with
            | none => .error "Date parsing error on start date"
            | some s =>
              match parseDate (term.fullyGradedDeadline.getD "") with
              | none => .error "Date parsing error on end date"
              | some e => .ok (term.name.getD "", s, e)

/-- `fetch_terms(term_ids, app_id, app_key)`: iterate over the term ids,
append a `(semester_name, start_date, end_date)` tuple on success, and on any
caught exception print a message and continue with the next id. -/
def fetchTerms (api : ℕ → Except String TermsResponse)
    (parseDate : String → Option Int) (termIds : List ℕ) :
    List (String × Int × Int) :=
  termIds.foldl
    (fun acc termId =>
      match processTerm api parseDate termId with
      | .ok t => acc ++ [t]
      | .error _ => acc)
    []

/-! ### Spec-side definitions

These definitions follow the words of the specification (not the code) and
exist only to be compared against the embedded code. -/

/-- Written from the claim wording: the first term, in chronological order of
start date, whose range contains the timestamp. -/
def firstMatchingTerm (terms : List Term) (ts : Int) : Option Term :=
  (sortTerms terms).find? (fun t => termMatches t ts)

/-- Written from the claim wording of C2: `Monday_on_or_before(start)` is
`start` minus `start.weekday()` days, and the week number is
`floor((T − Monday_on_or_before(start)) / 7 days) + 1`. -/
def specWeekNumber (start ts : Int) : Int :=
  (ts - (start - 86400 * weekday start)).fdiv (7 * 86400) + 1

/-- The index of the Monday–Sunday calendar week containing an instant: two
instants lie in the same Monday–Sunday week exactly when their
`mondayWeekIndex` agree (see `mondayWeekIndex_spec`). -/
def mondayWeekIndex (x : Int) : Int :=
  (x.fdiv 86400 + 3).fdiv 7

/-- The day index of the Monday on or before the day containing an instant. -/
def mondayOnOrBefore (x : Int) : Int :=
  x.fdiv 86400 - weekday x

/-! ### Lemmas about the assignment loop -/

theorem applyTerm_row (t : Term) (e : ERow) : (applyTerm t e).row = e.row := by
  unfold applyTerm; split <;> rfl

theorem foldl_applyTerm_row (ts : List Term) (e : ERow) :
    (ts.foldl (fun e t => applyTerm t e) e).row = e.row := by
  induction ts generalizing e with
  | nil => rfl
  | cons t ts ih => simp only [List.foldl_cons]; rw [ih, applyTerm_row]

theorem assignRow_row (ts : List Term) (r : Row) : (assignRow ts r).row = r := by
  unfold assignRow; rw [foldl_applyTerm_row]; rfl

theorem foldl_termPass (ts : List Term) (l : List ERow) :
    ts.foldl (fun d t => termPass t d) l
      = l.map (fun e => ts.foldl (fun e t => applyTerm t e) e) := by
  induction ts generalizing l with
  | nil => simp
  | cons t ts ih =>
      rw [List.foldl_cons, ih (termPass t l), termPass, List.map_map]
      rfl

theorem addSemesterInfo_eq (df : List Row) (terms : List Term) :
    addSemesterInfo df terms
      = (df.map (assignRow (sortTerms terms))).filter
          (fun e => e.semester != "Unknown") := by
  unfold addSemesterInfo
  simp only [foldl_termPass, List.map_map]
  rfl

theorem enhanceDataset_eq (df : List Row) (terms : List Term) :
    enhanceDataset df terms
      = addEquipmentCategory
          (((df.map (fun r => setAccessType r (normalizeAccess r.accessType))).map
              (assignRow (sortTerms terms))).filter
            (fun e => e.semester != "Unknown")) := by
  unfold enhanceDataset
  simp only [foldl_termPass, List.map_map]
  rfl

theorem assignRow_eq_lastMatch (ts : List Term) (r : Row) :
    assignRow ts r =
      match (ts.filter (fun t => termMatches t r.timestamp)).getLast? with
      | none => initRow r
      | some t =>
          { row := r, semester := t.name,
            semesterWeek := some (weekNum t r.timestamp) } := by
  induction ts using List.reverseRecOn with
  | nil => rfl
  | append_singleton l t ih =>
      have hstep : assignRow (l ++ [t]) r = applyTerm t (assignRow l r) := by
        unfold assignRow
        rw [List.foldl_append]
        rfl
      rw [hstep, ih, List.filter_append]
      cases h : termMatches t r.timestamp with
      | true =>
          cases hl : (l.filter (fun u => termMatches u r.timestamp)).getLast? <;>
            simp [List.filter_cons, h, List.getLast?_append, applyTerm, initRow]
      | false =>
          cases hl : (l.filter (fun u => termMatches u r.timestamp)).getLast? <;>
            simp [List.filter_cons, h, List.getLast?_append, applyTerm, initRow, hl]

theorem mem_insertTerm (t u : Term) (l : List Term) :
    u ∈ insertTerm t l ↔ u = t ∨ u ∈ l := by
  induction l with
  | nil => simp [insertTerm]
  | cons v vs ih =>
      unfold insertTerm
      split
      · simp only [List.mem_cons, ih]
        tauto
      · simp only [List.mem_cons]

theorem mem_sortTerms (l : List Term) (t : Term) :
    t ∈ sortTerms l ↔ t ∈ l := by
  induction l with
  | nil => simp [sortTerms]
  | cons u us ih =>
      unfold sortTerms
      rw [mem_insertTerm, ih]
      simp [List.mem_cons]

theorem getLast?_eq_of_all_eq {α : Type} (l : List α) (t : α)
    (hne : l ≠ []) (h : ∀ x ∈ l, x = t) : l.getLast? = some t := by
  induction l with
  | nil => cases hne rfl
  | cons x xs ih =>
      cases xs with
      | nil => rw [h x (by simp)]; rfl
      | cons y ys =>
          rw [List.getLast?_cons_cons]
          exact ih (by simp) (fun z hz => h z (by simp [hz]))

theorem mem_of_getLast? {α : Type} {l : List α} {t : α}
    (h : l.getLast? = some t) : t ∈ l := by
  induction l with
  | nil => simp at h
  | cons x xs ih =>
      cases xs with
      | nil =>
          simp only [List.getLast?_singleton, Option.some.injEq] at h
          simp [h]
      | cons y ys =>
          rw [List.getLast?_cons_cons] at h
          exact List.mem_cons.mpr (Or.inr (ih h))

theorem assignRow_fields_of_timestamp_eq (ts : List Term) (r r' : Row)
    (h : r'.timestamp = r.timestamp) :
    (assignRow ts r').semester = (assignRow ts r).semester ∧
    (assignRow ts r').semesterWeek = (assignRow ts r).semesterWeek := by
  rw [assignRow_eq_lastMatch, assignRow_eq_lastMatch, h]
  cases (ts.filter (fun t => termMatches t r.timestamp)).getLast? <;>
    simp [initRow]

/-! ### Arithmetic of the week number -/

theorem fdiv_86400 (a : Int) : a.fdiv 86400 = a / 86400 :=
  Int.fdiv_eq_ediv a (by norm_num)

theorem fdiv_7 (a : Int) : a.fdiv 7 = a / 7 :=
  Int.fdiv_eq_ediv a (by norm_num)

theorem fdiv_604800 (a : Int) : a.fdiv 604800 = a / 604800 :=
  Int.fdiv_eq_ediv a (by norm_num)

/-- The nested floor divisions of the code collapse to a single division by
7 days, so the code computes exactly the specified formula. -/
theorem weekNum_eq_specWeekNumber (t : Term) (ts : Int) :
    weekNum t ts = specWeekNumber t.startDate ts := by
  unfold weekNum specWeekNumber firstMonday weekday
  simp only [fdiv_86400, fdiv_7, show ((7 : Int) * 86400) = 604800 from rfl,
    fdiv_604800]
  omega

/-- The `mondayOnOrBefore` day is determined by `mondayWeekIndex` and
conversely: it equals `7 * mondayWeekIndex x - 3` (day 0 being a Thursday,
the Monday of week 0 is day −3). -/
theorem mondayOnOrBefore_eq (x : Int) :
    mondayOnOrBefore x = 7 * mondayWeekIndex x - 3 := by
  unfold mondayOnOrBefore mondayWeekIndex weekday
  simp only [fdiv_86400, fdiv_7]
  omega

/-- Closed form of the week number for a term whose start is a pure date:
1 plus the number of Monday–Sunday weeks between the week of the start and the
week of the timestamp. -/
theorem weekNum_closed (t : Term) (hd : (86400 : Int) ∣ t.startDate)
    (ts : Int) :
    weekNum t ts = mondayWeekIndex ts - mondayWeekIndex t.startDate + 1 := by
  obtain ⟨d, hdd⟩ := hd
  unfold weekNum firstMonday weekday mondayWeekIndex
  rw [hdd]
  simp only [fdiv_86400, fdiv_7]
  omega

/-! ### Lemmas about `dropDuplicates` -/

theorem mem_dropDuplicates (seen : List Row) (l : List Row) (r : Row) :
    r ∈ dropDuplicates seen l ↔ r ∈ l ∧ r ∉ seen := by
  induction l generalizing seen with
  | nil => simp [dropDuplicates]
  | cons x xs ih =>
      unfold dropDuplicates
      split
      · rw [ih]
        simp only [List.mem_cons]
        constructor
        · tauto
        · rintro ⟨hx | hx, hs⟩
          · subst hx; tauto
          · exact ⟨hx, hs⟩
      · simp only [List.mem_cons, ih, List.mem_cons]
        constructor
        · rintro (h | ⟨hm, hs⟩)
          · subst h; tauto
          · tauto
        · rintro ⟨hx | hx, hs⟩
          · subst hx; tauto
          · by_cases hrx : r = x
            · subst hrx; tauto
            · exact Or.inr ⟨hx, by simp [hs, hrx]⟩

theorem nodup_dropDuplicates (seen : List Row) (l : List Row) :
    (dropDuplicates seen l).Nodup := by
  induction l generalizing seen with
  | nil => exact List.nodup_nil
  | cons x xs ih =>
      unfold dropDuplicates
      split
      · exact ih seen
      · refine List.nodup_cons.mpr ⟨?_, ih (x :: seen)⟩
        intro hx
        exact ((mem_dropDuplicates (x :: seen) xs x).mp hx).2 (by simp)

/-! ### Lemmas about the peak-week selection -/

theorem foldl_maxBy_spec (f : WeekStat → ℚ) (x : WeekStat) (xs : List WeekStat) :
    (xs.foldl (fun best y => if f best < f y then y else best) x) ∈ x :: xs
    ∧ ∀ y ∈ x :: xs,
        f y ≤ f (xs.foldl (fun best y => if f best < f y then y else best) x) := by
  induction xs generalizing x with
  | nil =>
      refine ⟨by simp, ?_⟩
      intro y hy
      simp only [List.mem_singleton] at hy
      subst hy; exact le_refl _
  | cons z zs ih =>
      simp only [List.foldl_cons]
      obtain ⟨hmem, hle⟩ := ih (if f x < f z then z else x)
      have hx : f x ≤ f (if f x < f z then z else x) := by
        split <;> simp_all [le_of_lt]
      have hz : f z ≤ f (if f x < f z then z else x) := by
        split
        · exact le_refl _
        · exact le_of_not_lt (by assumption)
      refine ⟨?_, ?_⟩
      · rcases List.mem_cons.mp hmem with h | h
        · rw [h]
          split <;> simp
        · simp [h]
      · intro y hy
        rcases List.mem_cons.mp hy with h | hy2
        · subst h
          exact le_trans hx (hle _ (by simp))
        · rcases List.mem_cons.mp hy2 with h | h
          · subst h
            exact le_trans hz (hle _ (by simp))
          · exact hle y (by simp [h])

theorem foldl_minBy_spec (f : WeekStat → ℚ) (x : WeekStat) (xs : List WeekStat) :
    (xs.foldl (fun best y => if f y < f best then y else best) x) ∈ x :: xs
    ∧ ∀ y ∈ x :: xs,
        f (xs.foldl (fun best y => if f y < f best then y else best) x) ≤ f y := by
  induction xs generalizing x with
  | nil =>
      refine ⟨by simp, ?_⟩
      intro y hy
      simp only [List.mem_singleton] at hy
      subst hy; exact le_refl _
  | cons z zs ih =>
      simp only [List.foldl_cons]
      obtain ⟨hmem, hle⟩ := ih (if f z < f x then z else x)
      have hx : f (if f z < f x then z else x) ≤ f x := by
        split <;> simp_all [le_of_lt]
      have hz : f (if f z < f x then z else x) ≤ f z := by
        split
        · exact le_refl _
        · exact le_of_not_lt (by assumption)
      refine ⟨?_, ?_⟩
      · rcases List.mem_cons.mp hmem with h | h
        · rw [h]
          split <;> simp
        · simp [h]
      · intro y hy
        rcases List.mem_cons.mp hy with h | hy2
        · subst h
          exact le_trans (hle _ (by simp)) hx
        · rcases List.mem_cons.mp hy2 with h | h
          · subst h
            exact le_trans (hle _ (by simp)) hz
          · exact hle y (by simp [h])

theorem foldl_max_le (l : List WeekStat) (a : ℕ) :
    a ≤ l.foldl (fun m s => max m s.numSemesters) a
    ∧ ∀ s ∈ l, s.numSemesters ≤ l.foldl (fun m s => max m s.numSemesters) a := by
  induction l generalizing a with
  | nil => exact ⟨le_refl a, by simp⟩
  | cons x xs ih =>
      simp only [List.foldl_cons]
      obtain ⟨h1, h2⟩ := ih (max a x.numSemesters)
      refine ⟨le_trans (le_max_left _ _) h1, ?_⟩
      intro s hs
      rcases List.mem_cons.mp hs with h | h
      · subst h; exact le_trans (le_max_right _ _) h1
      · exact h2 s h

theorem foldl_max_attained (l : List WeekStat) (a : ℕ) :
    l.foldl (fun m s => max m s.numSemesters) a = a
    ∨ ∃ s ∈ l, l.foldl (fun m s => max m s.numSemesters) a = s.numSemesters := by
  induction l generalizing a with
  | nil => exact Or.inl rfl
  | cons x xs ih =>
      simp only [List.foldl_cons]
      rcases ih (max a x.numSemesters) with h | ⟨s, hs, h⟩
      · rcases Nat.le_total a x.numSemesters with hax | hax
        · exact Or.inr ⟨x, by simp, by rw [h]; exact Nat.max_eq_right hax⟩
        · exact Or.inl (by rw [h]; exact Nat.max_eq_left hax)
      · exact Or.inr ⟨s, by simp [hs], h⟩

theorem le_maxNumSemesters (stats : List WeekStat) :
    ∀ s ∈ stats, s.numSemesters ≤ maxNumSemesters stats :=
  (foldl_max_le stats 0).2

theorem maxNumSemesters_attained (stats : List WeekStat) (h : stats ≠ []) :
    ∃ s ∈ stats, s.numSemesters = maxNumSemesters stats := by
  rcases foldl_max_attained stats 0 with h0 | ⟨s, hs, hmax⟩
  · cases stats with
    | nil => cases h rfl
    | cons x xs =>
        refine ⟨x, by simp, ?_⟩
        have hle := le_maxNumSemesters (x :: xs) x (by simp)
        unfold maxNumSemesters at *
        omega
  · exact ⟨s, hs, hmax.symm⟩

/-! ### Lemmas about `fetchTerms` -/

theorem foldl_fetch_eq_filterMap (api : ℕ → Except String TermsResponse)
    (parseDate : String → Option Int) (ids : List ℕ)
    (acc : List (String × Int × Int)) :
    ids.foldl
        (fun acc termId =>
          match processTerm api parseDate termId with
          | .ok t => acc ++ [t]
          | .error _ => acc)
        acc
      = acc ++ ids.filterMap (fun i => (processTerm api parseDate i).toOption) := by
  induction ids generalizing acc with
  | nil => simp
  | cons i is ih =>
      simp only [List.foldl_cons, List.filterMap_cons]
      cases h : processTerm api parseDate i with
      | ok t => rw [ih]; simp [Except.toOption, h]
      | error e => rw [ih]; simp [Except.toOption, h]

theorem fetchTerms_eq_filterMap (api : ℕ → Except String TermsResponse)
    (parseDate : String → Option Int) (ids : List ℕ) :
    fetchTerms api parseDate ids
      = ids.filterMap (fun i => (processTerm api parseDate i).toOption) := by
  unfold fetchTerms
  rw [foldl_fetch_eq_filterMap]
  simp

theorem exists_output_of_lastMatch (df : List Row) (terms : List Term)
    (hname : ∀ t ∈ terms, t.name ≠ "Unknown") (r : Row) (hr : r ∈ df)
    (t : Term)
    (hlast :
      ((sortTerms terms).filter (fun u => termMatches u r.timestamp)).getLast?
        = some t) :
    ∃ e ∈ addSemesterInfo df terms,
      e.row = r ∧ e.semester = t.name
        ∧ e.semesterWeek = some (weekNum t r.timestamp) := by
  have htm : t ∈ (sortTerms terms).filter (fun u => termMatches u r.timestamp) :=
    mem_of_getLast? hlast
  have htterms : t ∈ terms :=
    (mem_sortTerms terms t).mp (List.mem_filter.mp htm).1
  have hassign : assignRow (sortTerms terms) r
      = { row := r, semester := t.name,
          semesterWeek := some (weekNum t r.timestamp) } := by
    rw [assignRow_eq_lastMatch, hlast]
  refine ⟨assignRow (sortTerms terms) r, ?_, ?_, ?_, ?_⟩
  · rw [addSemesterInfo_eq]
    refine List.mem_filter.mpr ⟨List.mem_map.mpr ⟨r, hr, rfl⟩, ?_⟩
    rw [hassign]
    simpa using hname t htterms
  · exact assignRow_row _ _
  · rw [hassign]
  · rw [hassign]

/-! ### The claims -/

/-- C1, counterexample.  The claim says the FIRST matching term in
chronological order of start date wins when ranges overlap.  Take the terms
"Fall A" (seconds 0–172800, i.e. days 0–2) and "Fall B" (seconds 86400–259200)
and one record at second 130000, which lies in both ranges.  The first
chronological match is "Fall A", but `add_semester_info` assigns "Fall B":
each later loop iteration overwrites the previous assignment. -/
theorem addSemesterInfo_not_first_match :
    (firstMatchingTerm
        [⟨"Fall A", 0, 172800⟩, ⟨"Fall B", 86400, 259200⟩] 130000).map Term.name
      = some "Fall A"
    ∧ (addSemesterInfo [⟨130000, "Jacobs Laser Access", []⟩]
          [⟨"Fall A", 0, 172800⟩, ⟨"Fall B", 86400, 259200⟩]).map ERow.semester
      = ["Fall B"]
    ∧ ("Fall A" : String) ≠ "Fall B" :=
  ⟨rfl, rfl, by decide⟩

/-- C1, amended.  `add_semester_info` assigns each timestamp to a term whose
range contains it (both boundary dates included); if the ranges overlap and a
timestamp falls in several ranges, the LAST matching term in chronological
order of start date wins, and when the matching term is unique it is the one
assigned.  (The term names are assumed distinct from the sentinel
`"Unknown"`, otherwise the row would be dropped.) -/
theorem addSemesterInfo_assigns_last_match (df : List Row) (terms : List Term)
    (hname : ∀ t ∈ terms, t.name ≠ "Unknown") (r : Row) (hr : r ∈ df) :
    (∀ t : Term,
        ((sortTerms terms).filter (fun u => termMatches u r.timestamp)).getLast?
            = some t →
        ∃ e ∈ addSemesterInfo df terms,
          e.row = r ∧ e.semester = t.name
            ∧ e.semesterWeek = some (weekNum t r.timestamp))
    ∧ (∀ t ∈ terms, termMatches t r.timestamp = true →
        (∀ u ∈ terms, termMatches u r.timestamp = true → u = t) →
        ∃ e ∈ addSemesterInfo df terms, e.row = r ∧ e.semester = t.name) := by
  constructor
  · intro t hlast
    exact exists_output_of_lastMatch df terms hname r hr t hlast
  · intro t ht hmatch huniq
    have htf : t ∈ (sortTerms terms).filter (fun u => termMatches u r.timestamp) :=
      List.mem_filter.mpr ⟨(mem_sortTerms terms t).mpr ht, hmatch⟩
    have hall : ∀ x ∈ (sortTerms terms).filter (fun u => termMatches u r.timestamp),
        x = t := by
      intro x hx
      obtain ⟨hxs, hxm⟩ := List.mem_filter.mp hx
      exact huniq x ((mem_sortTerms terms x).mp hxs) hxm
    have hlast := getLast?_eq_of_all_eq _ t (List.ne_nil_of_mem htf) hall
    obtain ⟨e, he, h1, h2, _⟩ :=
      exists_output_of_lastMatch df terms hname r hr t hlast
    exact ⟨e, he, h1, h2⟩

/-- C1, witness for the amended claim at a concrete overlapping input. -/
theorem addSemesterInfo_assigns_last_match_witness :
    ("Fall B" : String) ∈
      (addSemesterInfo [⟨130000, "Jacobs Laser Access", []⟩]
        [⟨"Fall A", 0, 172800⟩, ⟨"Fall B", 86400, 259200⟩]).map ERow.semester := by
  obtain ⟨e, he, _, hsem, _⟩ :=
    (addSemesterInfo_assigns_last_match
        [⟨130000, "Jacobs Laser Access", []⟩]
        [⟨"Fall A", 0, 172800⟩, ⟨"Fall B", 86400, 259200⟩]
        (by decide) ⟨130000, "Jacobs Laser Access", []⟩ (by decide)).1
      ⟨"Fall B", 86400, 259200⟩ (by decide)
  exact List.mem_map.mpr ⟨e, he, hsem⟩

/-- C2: for every timestamp assigned to a term, the `Semester_Week` computed
by the assignment loop equals
`floor((T − Monday_on_or_before(start)) / 7 days) + 1` with
`Monday_on_or_before(start) = start − start.weekday() days`
(`specWeekNumber`, written from the spec). -/
theorem assignRow_week_eq_spec_formula (terms : List Term) (r : Row) (t : Term)
    (hlast :
      ((sortTerms terms).filter (fun u => termMatches u r.timestamp)).getLast?
        = some t) :
    (assignRow (sortTerms terms) r).semesterWeek
      = some (specWeekNumber t.startDate r.timestamp) := by
  rw [assignRow_eq_lastMatch, hlast]
  simp [weekNum_eq_specWeekNumber]

/-- C2, witness: a record at second 130000 in a term starting at the epoch
(a Thursday) is in week 1. -/
theorem assignRow_week_eq_spec_formula_witness :
    (assignRow (sortTerms [⟨"Fall A", 0, 172800⟩])
        ⟨130000, "Jacobs Laser Access", []⟩).semesterWeek
      = some (specWeekNumber 0 130000) :=
  assignRow_week_eq_spec_formula [⟨"Fall A", 0, 172800⟩]
    ⟨130000, "Jacobs Laser Access", []⟩ ⟨"Fall A", 0, 172800⟩ (by decide)

/-- C3: the `Semester` and `Semester_Week` columns produced by the term/week
assignment loop in `enhance_dataset` coincide with those produced by
`add_semester_info`, for every input DataFrame and term list: the prior
`Access Type` normalization touches neither the timestamps nor the two
semester columns, and the trailing equipment-category step only appends a
column. -/
theorem enhanceDataset_semester_columns (df : List Row) (terms : List Term) :
    (enhanceDataset df terms).map (fun c => (c.semester, c.semesterWeek))
      = (addSemesterInfo df terms).map (fun e => (e.semester, e.semesterWeek)) := by
  rw [enhanceDataset_eq, addSemesterInfo_eq]
  unfold addEquipmentCategory
  induction df with
  | nil => rfl
  | cons r rs ih =>
      simp only [List.map_cons, List.filter_cons]
      have h1 := (assignRow_fields_of_timestamp_eq (sortTerms terms)
        r (setAccessType r (normalizeAccess r.accessType)) rfl).1
      have h2 := (assignRow_fields_of_timestamp_eq (sortTerms terms)
        r (setAccessType r (normalizeAccess r.accessType)) rfl).2
      rw [h1]
      by_cases hc :
          ((assignRow (sortTerms terms) r).semester != "Unknown") = true
      · simp only [hc, if_true, List.map_cons]
        rw [ih]
        simp [h1, h2]
      · simp only [hc, if_false]
        exact ih

/-- C4: stability of the week index.  First, replacing a term's start date by
any other date in the same Monday–Sunday calendar week (same Monday on or
before it) leaves the week number computed for every timestamp unchanged.
Second, two timestamps in the same Monday–Sunday calendar week of the same
term receive equal week numbers.  Start dates are pure dates (midnight,
`86400 ∣ startDate`), as produced by `strptime(_, "%Y-%m-%d")`. -/
theorem weekNum_week_stability :
    (∀ (t : Term) (s' : Int), (86400 : Int) ∣ t.startDate →
        (86400 : Int) ∣ s' →
        mondayOnOrBefore t.startDate = mondayOnOrBefore s' →
        ∀ ts : Int, weekNum t ts = weekNum { t with startDate := s' } ts)
    ∧ ∀ (t : Term) (ts₁ ts₂ : Int), (86400 : Int) ∣ t.startDate →
        mondayOnOrBefore ts₁ = mondayOnOrBefore ts₂ →
        weekNum t ts₁ = weekNum t ts₂ := by
  constructor
  · intro t s' hd hd' hmon ts
    have hidx : mondayWeekIndex t.startDate = mondayWeekIndex s' := by
      have h1 := mondayOnOrBefore_eq t.startDate
      have h2 := mondayOnOrBefore_eq s'
      omega
    rw [weekNum_closed t hd ts, weekNum_closed _ hd' ts]
    rw [show ({ t with startDate := s' } : Term).startDate = s' from rfl, hidx]
  · intro t ts₁ ts₂ hd hmon
    have hidx : mondayWeekIndex ts₁ = mondayWeekIndex ts₂ := by
      have h1 := mondayOnOrBefore_eq ts₁
      have h2 := mondayOnOrBefore_eq ts₂
      omega
    rw [weekNum_closed t hd ts₁, weekNum_closed t hd ts₂, hidx]

/-- C4, witness: moving a start date from Monday (day 4) to Wednesday (day 6)
of the same week does not change any week number, and two timestamps on day 4
and day 8 (same Monday–Sunday week) get the same week number. -/
theorem weekNum_week_stability_witness :
    weekNum ⟨"A", 345600, 999999999⟩ 500000
        = weekNum ⟨"A", 518400, 999999999⟩ 500000
    ∧ weekNum ⟨"A", 345600, 999999999⟩ 400000
        = weekNum ⟨"A", 345600, 999999999⟩ 700000 :=
  ⟨weekNum_week_stability.1 ⟨"A", 345600, 999999999⟩ 518400
      (by norm_num) (by norm_num) (by decide) 500000,
   weekNum_week_stability.2 ⟨"A", 345600, 999999999⟩ 400000 700000
      (by norm_num) (by decide)⟩

/-- C5: the term/week assignment is a deterministic pure function — equal
input DataFrames and equal term lists give equal outputs.  The embedding
itself is a total pure function of its two arguments (the code reads no
hidden state inside the loop), so determinism is equality under equal
inputs. -/
theorem addSemesterInfo_deterministic (df₁ df₂ : List Row)
    (terms₁ terms₂ : List Term) (h1 : df₁ = df₂) (h2 : terms₁ = terms₂) :
    addSemesterInfo df₁ terms₁ = addSemesterInfo df₂ terms₂ := by
  rw [h1, h2]

/-- C5, witness. -/
theorem addSemesterInfo_deterministic_witness :
    addSemesterInfo [⟨130000, "Jacobs Laser Access", []⟩]
        [⟨"Fall A", 0, 172800⟩]
      = addSemesterInfo [⟨130000, "Jacobs Laser Access", []⟩]
        [⟨"Fall A", 0, 172800⟩] :=
  addSemesterInfo_deterministic
    [⟨130000, "Jacobs Laser Access", []⟩] [⟨130000, "Jacobs Laser Access", []⟩]
    [⟨"Fall A", 0, 172800⟩] [⟨"Fall A", 0, 172800⟩] rfl rfl

theorem matched_of_assignRow_ne (terms : List Term) (r : Row)
    (h : (assignRow (sortTerms terms) r).semester ≠ "Unknown") :
    ∃ t ∈ terms, termMatches t r.timestamp = true := by
  rw [assignRow_eq_lastMatch] at h
  cases hl : ((sortTerms terms).filter
      (fun t => termMatches t r.timestamp)).getLast? with
  | none => rw [hl] at h; exact absurd rfl h
  | some t =>
      obtain ⟨hs, hm⟩ := List.mem_filter.mp (mem_of_getLast? hl)
      exact ⟨t, (mem_sortTerms terms t).mp hs, hm⟩

/-- C6: every row kept by `add_semester_info` (resp. `enhance_dataset`) has a
timestamp inside the closed range of some supplied term, and no kept row has
the sentinel semester `"Unknown"`. -/
theorem addSemesterInfo_rows_matched (df : List Row) (terms : List Term) :
    (∀ e ∈ addSemesterInfo df terms,
        e.semester ≠ "Unknown"
          ∧ ∃ t ∈ terms, termMatches t e.row.timestamp = true)
    ∧ ∀ c ∈ enhanceDataset df terms,
        c.semester ≠ "Unknown"
          ∧ ∃ t ∈ terms, termMatches t c.row.timestamp = true := by
  constructor
  · intro e he
    rw [addSemesterInfo_eq] at he
    obtain ⟨hmem, hp⟩ := List.mem_filter.mp he
    obtain ⟨r, hr, rfl⟩ := List.mem_map.mp hmem
    have hne : (assignRow (sortTerms terms) r).semester ≠ "Unknown" := by
      simpa using hp
    refine ⟨hne, ?_⟩
    have hm := matched_of_assignRow_ne terms r hne
    rwa [assignRow_row]
  · intro c hc
    rw [enhanceDataset_eq] at hc
    unfold addEquipmentCategory at hc
    obtain ⟨e, he, rfl⟩ := List.mem_map.mp hc
    obtain ⟨hmem, hp⟩ := List.mem_filter.mp he
    obtain ⟨r', hr', rfl⟩ := List.mem_map.mp hmem
    have hne : (assignRow (sortTerms terms) r').semester ≠ "Unknown" := by
      simpa using hp
    refine ⟨by simpa using hne, ?_⟩
    have hm := matched_of_assignRow_ne terms r' hne
    simpa [assignRow_row] using hm

/-- C6, witness at a concrete one-row, one-term input. -/
theorem addSemesterInfo_rows_matched_witness :
    (⟨⟨130000, "Jacobs Laser Access", []⟩, "Fall A", some 1⟩ : ERow).semester
      ≠ "Unknown" :=
  ((addSemesterInfo_rows_matched [⟨130000, "Jacobs Laser Access", []⟩]
      [⟨"Fall A", 0, 172800⟩]).1
    ⟨⟨130000, "Jacobs Laser Access", []⟩, "Fall A", some 1⟩ (by decide)).1

theorem identifyPeakWeeks_cons_eq (x : WeekStat) (xs : List WeekStat)
    (c : WeekStat) (cs : List WeekStat)
    (hcw : (x :: xs).filter
        (fun s => (3 / 4 : ℚ) * (maxNumSemesters (x :: xs) : ℚ)
          ≤ (s.numSemesters : ℚ)) = c :: cs) :
    identifyPeakWeeks (x :: xs)
      = some (((xs.foldl (fun best y =>
            if best.avgUsage < y.avgUsage then y else best) x).week,
          (xs.foldl (fun best y =>
            if best.avgUsage < y.avgUsage then y else best) x).avgUsage),
          ((cs.foldl (fun best y =>
            if y.avgUsage < best.avgUsage then y else best) c).week,
          (cs.foldl (fun best y =>
            if y.avgUsage < best.avgUsage then y else best) c).avgUsage)) := by
  unfold identifyPeakWeeks
  rw [show idxmaxBy WeekStat.avgUsage (x :: xs)
      = some (xs.foldl (fun best y =>
          if best.avgUsage < y.avgUsage then y else best) x) from rfl]
  simp only []
  rw [hcw]
  rw [show idxminBy WeekStat.avgUsage (c :: cs)
      = some (cs.foldl (fun best y =>
          if y.avgUsage < best.avgUsage then y else best) c) from rfl]

/-- C7: on a nonempty `weekly_stats`, `identify_peak_weeks` returns as highest
week a pair maximizing `avg_usage` over ALL weeks, and as lowest week a pair
minimizing `avg_usage` only among the weeks whose `num_semesters` is at least
75% of the maximal `num_semesters`; in particular the reported lowest week
itself satisfies that coverage threshold, so a week below it is never
reported. -/
theorem identifyPeakWeeks_spec (stats : List WeekStat) (hne : stats ≠ []) :
    ∃ hi lo : WeekStat,
      identifyPeakWeeks stats
          = some ((hi.week, hi.avgUsage), (lo.week, lo.avgUsage))
      ∧ hi ∈ stats ∧ (∀ s ∈ stats, s.avgUsage ≤ hi.avgUsage)
      ∧ lo ∈ stats
      ∧ (3 / 4 : ℚ) * (maxNumSemesters stats : ℚ) ≤ (lo.numSemesters : ℚ)
      ∧ ∀ s ∈ stats,
          (3 / 4 : ℚ) * (maxNumSemesters stats : ℚ) ≤ (s.numSemesters : ℚ) →
          lo.avgUsage ≤ s.avgUsage := by
  cases stats with
  | nil => cases hne rfl
  | cons x xs =>
    obtain ⟨hiMem, hiLe⟩ := foldl_maxBy_spec WeekStat.avgUsage x xs
    obtain ⟨m, hm, hmval⟩ := maxNumSemesters_attained (x :: xs) (by simp)
    have hmpred : (3 / 4 : ℚ) * (maxNumSemesters (x :: xs) : ℚ)
        ≤ (m.numSemesters : ℚ) := by
      rw [hmval]
      have h0 : (0 : ℚ) ≤ (maxNumSemesters (x :: xs) : ℚ) := by positivity
      linarith
    have hmcw : m ∈ (x :: xs).filter
        (fun s => (3 / 4 : ℚ) * (maxNumSemesters (x :: xs) : ℚ)
          ≤ (s.numSemesters : ℚ)) :=
      List.mem_filter.mpr ⟨hm, by simpa using hmpred⟩
    cases hcw : (x :: xs).filter
        (fun s => (3 / 4 : ℚ) * (maxNumSemesters (x :: xs) : ℚ)
          ≤ (s.numSemesters : ℚ)) with
    | nil => rw [hcw] at hmcw; simp at hmcw
    | cons c cs =>
      obtain ⟨loMem, loLe⟩ := foldl_minBy_spec WeekStat.avgUsage c cs
      rw [hcw] at hmcw
      have heq := identifyPeakWeeks_cons_eq x xs c cs hcw
      have hlo : (cs.foldl
          (fun best y => if y.avgUsage < best.avgUsage then y else best) c)
          ∈ (x :: xs).filter
            (fun s => (3 / 4 : ℚ) * (maxNumSemesters (x :: xs) : ℚ)
              ≤ (s.numSemesters : ℚ)) := by
        rw [hcw]; exact loMem
      have hloStats := (List.mem_filter.mp hlo).1
      have hloPred : (3 / 4 : ℚ) * (maxNumSemesters (x :: xs) : ℚ)
          ≤ (((cs.foldl (fun best y =>
              if y.avgUsage < best.avgUsage then y else best) c)).numSemesters : ℚ) := by
        simpa using (List.mem_filter.mp hlo).2
      have hloMin : ∀ s ∈ x :: xs,
          (3 / 4 : ℚ) * (maxNumSemesters (x :: xs) : ℚ) ≤ (s.numSemesters : ℚ) →
          (cs.foldl (fun best y =>
              if y.avgUsage < best.avgUsage then y else best) c).avgUsage
            ≤ s.avgUsage := by
        intro s hs hsp
        have hscw : s ∈ (x :: xs).filter
            (fun u => (3 / 4 : ℚ) * (maxNumSemesters (x :: xs) : ℚ)
              ≤ (u.numSemesters : ℚ)) :=
          List.mem_filter.mpr ⟨hs, by simpa using hsp⟩
        rw [hcw] at hscw
        exact loLe s hscw
      exact ⟨_, _, heq, hiMem, hiLe, hloStats, hloPred, hloMin⟩

/-- C7, witness at a four-week concrete table. -/
theorem identifyPeakWeeks_spec_witness :
    (identifyPeakWeeks
        [⟨1, 10, 4⟩, ⟨2, 50, 4⟩, ⟨3, 1, 1⟩, ⟨4, 20, 4⟩]).isSome = true := by
  obtain ⟨hi, lo, heq, _⟩ :=
    identifyPeakWeeks_spec [⟨1, 10, 4⟩, ⟨2, 50, 4⟩, ⟨3, 1, 1⟩, ⟨4, 20, 4⟩]
      (by decide)
  rw [heq]
  rfl

/-- C8: `fetch_terms` recovers from failures per term id: every caught
failure (request error, missing key, date-parse error) only skips that id,
and the returned list holds one tuple for exactly the successfully processed
ids, in input order.  The loop body for one id is `processTerm`, the faithful
embedding of the `try` block. -/
theorem fetchTerms_error_recovery (api : ℕ → Except String TermsResponse)
    (parseDate : String → Option Int) :
    (∀ ids : List ℕ,
        fetchTerms api parseDate ids
          = ids.filterMap (fun i => (processTerm api parseDate i).toOption))
    ∧ ∀ (ids₁ ids₂ : List ℕ) (bad : ℕ) (msg : String),
        processTerm api parseDate bad = .error msg →
        fetchTerms api parseDate (ids₁ ++ bad :: ids₂)
          = fetchTerms api parseDate (ids₁ ++ ids₂) := by
  constructor
  · exact fetchTerms_eq_filterMap api parseDate
  · intro ids₁ ids₂ bad msg hbad
    rw [fetchTerms_eq_filterMap, fetchTerms_eq_filterMap,
      List.filterMap_append, List.filterMap_append, List.filterMap_cons]
    simp [hbad, Except.toOption]

/-- C8, witness: a term id whose request fails is skipped without affecting
its neighbours. -/
theorem fetchTerms_error_recovery_witness :
    fetchTerms (fun _ => Except.error "down") (fun _ => none) ([5] ++ 7 :: [9])
      = fetchTerms (fun _ => Except.error "down") (fun _ => none) ([5] ++ [9]) :=
  (fetchTerms_error_recovery (fun _ => Except.error "down") (fun _ => none)).2
    [5] [9] 7 "API request failed: down" rfl

/-- C9: `clean_and_load` returns exactly the distinct input rows whose
timestamp is outside the closed COVID interval: membership is equivalent to
being an input row outside `[covid_start, covid_end]`, and the result has no
duplicate rows. -/
theorem cleanAndLoad_spec (rows : List Row) (covidStart covidEnd : Int) :
    (∀ r : Row,
        r ∈ cleanAndLoad rows covidStart covidEnd ↔
          r ∈ rows
            ∧ ¬(covidStart ≤ r.timestamp ∧ r.timestamp ≤ covidEnd))
    ∧ (cleanAndLoad rows covidStart covidEnd).Nodup := by
  constructor
  · intro r
    unfold cleanAndLoad
    simp only [List.mem_filter, mem_dropDuplicates, List.not_mem_nil,
      not_false_iff, and_true, Bool.not_eq_true', Bool.and_eq_true,
      decide_eq_true_eq, Bool.not_eq_true, Bool.and_eq_false_iff,
      decide_eq_false_iff_not]
    tauto
  · unfold cleanAndLoad
    exact List.Nodup.filter _ (nodup_dropDuplicates [] rows)

/-- C10: `add_semester_info` only adds the two semester columns: the
underlying input-row part of its output is exactly a filter of the input
DataFrame, so every input column keeps its original values on all retained
rows (the input itself is untouched — the embedding of `df.copy()` is a pure
function of the input). -/
theorem addSemesterInfo_preserves_input_columns (df : List Row)
    (terms : List Term) :
    (addSemesterInfo df terms).map ERow.row
      = df.filter
          (fun r => (assignRow (sortTerms terms) r).semester != "Unknown") := by
  rw [addSemesterInfo_eq, List.filter_map, List.map_map]
  have hrow : ∀ r ∈ df.filter
      ((fun e => e.semester != "Unknown") ∘ assignRow (sortTerms terms)),
      (ERow.row ∘ assignRow (sortTerms terms)) r = id r :=
    fun r _ => assignRow_row _ r
  rw [List.map_congr_left hrow, List.map_id]
  exact List.filter_congr (fun r _ => rfl)

end Makerspace
